import Mathlib

/-!
# RS485_Modbus_C : the ProWaveDAQ acquisition / save-unit pipeline

A shallow embedding of

* the save-unit batcher of `ProWaveDAQ/main.cpp` (the counter-changed branch of the
  consumer loop, lines 122-156),
* the consumer loop's change detection (`currentCounter` / `prevCounter`),
* the acquisition loop `ProWaveDAQ::readLoop` of `ProWaveDAQ/include/ProWaveDAQ.cpp`,
* `CSVWriter::addDataBlock`, `updateFilename` and `generateFilename` of
  `ProWaveDAQ/include/CSVWriter.cpp`,

followed by the properties established about them.

Conventions.  A C++ `int` is an `Int`; the one place where a `size_t` is narrowed back into
an `int` (`dataSize += data.size()`) carries the explicit 32-bit wrap.  A `std::vector` is a
`List`.  Constructing a vector from an iterator range that is not inside the source vector,
or indexing a vector or array outside its bounds, is undefined behaviour and is reported as
`none`; so is a loop that has not finished when its fuel is used up.  A `double` is the
rational number it denotes.
-/

namespace ProWaveDAQ

set_option maxRecDepth 4000

/-! ## The save-unit batcher (`ProWaveDAQ/main.cpp`) -/

/-- Narrowing of an integer value to a 32-bit two's-complement `int`. -/
def wrapInt32 (x : Int) : Int := (x + 2147483648) % 4294967296 - 2147483648

/-- The calls the batcher makes on the `CSVWriter`, in the order it makes them. -/
inductive WriterCall (α : Type) where
  | addDataBlock (dataBlock : List α)
  | updateFilename
  deriving DecidableEq, Repr

/-- The vector built by `vector<double>(data.begin() + first, data.begin() + last)`;
`none` when the iterator range is not a range of `data`. -/
def slice {α : Type} (data : List α) (first last : Int) : Option (List α) :=
  if 0 ≤ first ∧ first ≤ last ∧ last ≤ (data.length : Int) then
    some ((data.drop first.toNat).take (last - first).toNat)
  else none

/-- The splitting loop `while (dataSize >= targetSize) { ... }` (main.cpp lines 133-142):
every iteration writes `data[0 .. emptySpace)`, rotates the file name and subtracts
`targetSize` from `dataSize`.  The state is `dataSize` and the writer calls made so far. -/
def splitLoop {α : Type} (targetSize emptySpace : Int) (data : List α) :
    Nat → Int → List (WriterCall α) → Option (Int × List (WriterCall α))
  | 0, dataSize, calls => if dataSize ≥ targetSize then none else some (dataSize, calls)
  | fuel + 1, dataSize, calls =>
    if dataSize ≥ targetSize then
      match slice data 0 emptySpace with
      | none => none
      | some batch =>
        splitLoop targetSize emptySpace data fuel (dataSize - targetSize)
          (calls ++ [WriterCall.addDataBlock batch, WriterCall.updateFilename])
    else some (dataSize, calls)

/-- One batcher call (main.cpp lines 124-154): from `targetSize`, the running fill
`dataSize` and the batch `data` to the new `dataSize` and the writer calls made. -/
def batcher {α : Type} (fuel : Nat) (targetSize dataSize : Int) (data : List α) :
    Option (Int × List (WriterCall α)) :=
  let dataSize1 := wrapInt32 (dataSize + (data.length : Int))
  if dataSize1 < targetSize then
    some (dataSize1, [WriterCall.addDataBlock data])
  else
    let dataActualSize := wrapInt32 (data.length : Int)
    let emptySpace := targetSize - (dataSize1 - dataActualSize)
    match splitLoop targetSize emptySpace data fuel dataSize1 [] with
    | none => none
    | some (_, calls) =>
      let pending := dataActualSize - emptySpace
      if pending ≠ 0 then
        match slice data emptySpace (data.length : Int) with
        | none => none
        | some remainingData =>
          some (pending, calls ++ [WriterCall.addDataBlock remainingData])
      else some (0, calls)

/-- The batcher run over the batches the consumer observes, one call per batch, threading
`dataSize` and collecting the writer calls. -/
def runBatches {α : Type} (fuel : Nat) (targetSize : Int) :
    Int → List (List α) → Option (Int × List (WriterCall α))
  | dataSize, [] => some (dataSize, [])
  | dataSize, data :: rest =>
    match batcher fuel targetSize dataSize data with
    | none => none
    | some (dataSize1, calls) =>
      match runBatches fuel targetSize dataSize1 rest with
      | none => none
      | some (dataSize2, calls2) => some (dataSize2, calls ++ calls2)

/-- The samples handed to `addDataBlock`, concatenated in the order of the calls. -/
def written {α : Type} : List (WriterCall α) → List α
  | [] => []
  | WriterCall.addDataBlock dataBlock :: rest => dataBlock ++ written rest
  | WriterCall.updateFilename :: rest => written rest

/-- The number of `updateFilename` calls (rotations). -/
def rotations {α : Type} : List (WriterCall α) → Nat
  | [] => 0
  | WriterCall.addDataBlock _ :: rest => rotations rest
  | WriterCall.updateFilename :: rest => rotations rest + 1

/-- The call trace cut at the rotations: the samples handed to `addDataBlock` before the
first `updateFilename`, between consecutive `updateFilename` calls, and after the last one.
This is a property of the calls only; which file a run reaches and what is written there
is decided by `CSVWriter.applyCalls`. -/
def runsOf {α : Type} : List (WriterCall α) → List (List α)
  | [] => [[]]
  | WriterCall.addDataBlock dataBlock :: rest =>
    match runsOf rest with
    | [] => [dataBlock]
    | file :: files => (dataBlock ++ file) :: files
  | WriterCall.updateFilename :: rest => [] :: runsOf rest

/-- The writer calls of `k` iterations of the splitting loop, each writing `batch`. -/
def loopCalls {α : Type} (batch : List α) : Nat → List (WriterCall α)
  | 0 => []
  | k + 1 => WriterCall.addDataBlock batch :: WriterCall.updateFilename :: loopCalls batch k

/-- Relabelling of the samples in a writer call. -/
def WriterCall.map {α β : Type} (g : α → β) : WriterCall α → WriterCall β
  | WriterCall.addDataBlock dataBlock => WriterCall.addDataBlock (dataBlock.map g)
  | WriterCall.updateFilename => WriterCall.updateFilename

/-- Relabelling of the samples in the result of a batcher call. -/
def mapResult {α β : Type} (g : α → β) (r : Int × List (WriterCall α)) :
    Int × List (WriterCall β) :=
  (r.1, r.2.map (WriterCall.map g))

/-! ## The consumer loop's change detection (`ProWaveDAQ/main.cpp`, lines 108-157) -/

/-- The state shared by the acquisition thread and the consumer loop, with the consumer's
locals: `counter` and `latestData` are the fields of `ProWaveDAQ`, `prevCounter` and
`currentCounter` the locals of `main` (`currentCounter` is `none` between two iterations of
the consumer loop), and `handed` records, in order, every batch that `daq.getData()`
returned in the counter-changed branch, i.e. every batch given to the batcher. -/
structure Pipeline (α : Type) where
  counter : Int
  latestData : List α
  prevCounter : Int
  currentCounter : Option Int
  handed : List (List α)
  deriving DecidableEq, Repr

/-- The atomic steps of the two threads. -/
inductive Step (α : Type) where
  /-- the acquisition thread publishes a batch (ProWaveDAQ.cpp lines 171-178) -/
  | publish (batch : List α)
  /-- the consumer starts an iteration: `int currentCounter = daq.getCounter()` -/
  | getCounter
  /-- the consumer finishes the iteration: `if (currentCounter > prevCounter) { ... }` -/
  | process
  deriving DecidableEq, Repr

/-- One atomic step; `none` when the step is not the consumer's next one. -/
def step {α : Type} (s : Pipeline α) : Step α → Option (Pipeline α)
  | Step.publish batch =>
    some { s with latestData := batch, counter := wrapInt32 (s.counter + 1) }
  | Step.getCounter =>
    match s.currentCounter with
    | some _ => none
    | none => some { s with currentCounter := some s.counter }
  | Step.process =>
    match s.currentCounter with
    | none => none
    | some currentCounter =>
      if currentCounter > s.prevCounter then
        some { s with handed := s.handed ++ [s.latestData],
                      prevCounter := s.prevCounter + 1,
                      currentCounter := none }
      else some { s with currentCounter := none }

/-- An interleaving of the two threads, step by step. -/
def run {α : Type} : Pipeline α → List (Step α) → Option (Pipeline α)
  | s, [] => some s
  | s, a :: rest =>
    match step s a with
    | none => none
    | some s1 => run s1 rest

/-- The pipeline when the consumer loop is entered with a fresh `ProWaveDAQ` object:
`counter(0)`, no batch published, `prevCounter = 0`. -/
def initialPipeline (α : Type) : Pipeline α :=
  { counter := 0, latestData := [], prevCounter := 0, currentCounter := none, handed := [] }

/-! ## The acquisition loop (`ProWaveDAQ::readLoop`) -/

/-- The value `static_cast<int16_t>(w)` of a register word: the integer congruent to `w`
modulo `2^16` in the range of `int16_t`. -/
def castInt16 (w : Nat) : Int := ((w : Int) + 32768) % 65536 - 32768

/-- The conversion `static_cast<double>(static_cast<int16_t>(w)) / 8192.0`
(ProWaveDAQ.cpp line 175, readData/main.cpp lines 148-159). -/
def convertRegister (w : Nat) : ℚ := (castInt16 w : ℚ) / 8192

/-- The constant `int maxSize = 41 * 3`. -/
def maxSize : Nat := 41 * 3

/-- The effect of `modbus_read_input_registers(ctx, 0x02, nb, dest)` on `dest`: the
registers the device returned (`reply`, at most `nb` of them, as 16-bit words) overwrite
the front of `dest`; a failed read returns nothing and leaves `dest` as it was. -/
def readRegisters (nb : Nat) (reply : List Nat) (dest : List Nat) : List Nat :=
  (reply.take nb).map (fun w => w % 65536) ++ dest.drop (reply.take nb).length

/-- The locals and fields `readLoop` works on: `vib_data` is `uint16_t vib_data[maxSize + 1]`,
`saveLen` the conversion count, `latestData` and `counter` the published batch and the
read counter. -/
structure ReadLoopState where
  vib_data : List Nat
  saveLen : Nat
  latestData : List ℚ
  counter : Int
  deriving DecidableEq

/-- The conversion loop `for (int i = 1; i <= saveLen; i++) latestData.push_back(...)`:
the first argument is the number of iterations still to run; `none` when `vib_data[i]` is
outside the array. -/
def convertLoop (vib_data : List Nat) : Nat → Nat → List ℚ → Option (List ℚ)
  | 0, _, latestData => some latestData
  | remaining + 1, i, latestData =>
    match vib_data[i]? with
    | none => none
    | some w => convertLoop vib_data remaining (i + 1) (latestData ++ [convertRegister w])

/-- The part of a cycle after the read (ProWaveDAQ.cpp lines 171-179): clear
`latestData`, convert registers `1 .. saveLen`, increment `counter`, and set `saveLen` to
the header now in `vib_data[0]`. -/
def publishCycle (s : ReadLoopState) (vib_data : List Nat) : Option ReadLoopState :=
  match convertLoop vib_data s.saveLen 1 [] with
  | none => none
  | some latestData =>
    match vib_data[0]? with
    | none => none
    | some header =>
      some { vib_data := vib_data, saveLen := header, latestData := latestData,
             counter := wrapInt32 (s.counter + 1) }

/-- The code before the loop (ProWaveDAQ.cpp lines 148-154): read the one-register count
into the uninitialised array and take it as `saveLen`. -/
def readLoopStart (vib_data : List Nat) (latestData : List ℚ) (counter : Int)
    (reply : List Nat) : Option ReadLoopState :=
  match (readRegisters 1 reply vib_data)[0]? with
  | none => none
  | some header =>
    some { vib_data := readRegisters 1 reply vib_data, saveLen := header,
           latestData := latestData, counter := counter }

/-- One iteration of `while (reading) { ... }` (ProWaveDAQ.cpp lines 158-180), `reply`
being what the device returns to the read of this iteration. -/
def readLoopCycle (s : ReadLoopState) (reply : List Nat) : Option ReadLoopState :=
  match s.vib_data[0]? with
  | none => none
  | some header =>
    if header ≥ maxSize then
      publishCycle s (readRegisters (maxSize + 1) reply s.vib_data)
    else if header ≤ 6 then
      some { s with vib_data := readRegisters 1 reply s.vib_data }
    else
      publishCycle s (readRegisters (header + 1) reply s.vib_data)

/-- The number of registers the read of a cycle asks for, from the header at its start. -/
def readLength (header : Nat) : Nat :=
  if header ≥ maxSize then maxSize + 1 else if header ≤ 6 then 1 else header + 1

/-- Several iterations of the loop, one reply per iteration. -/
def readLoopCycles : ReadLoopState → List (List Nat) → Option ReadLoopState
  | s, [] => some s
  | s, reply :: rest =>
    match readLoopCycle s reply with
    | none => none
    | some s1 => readLoopCycles s1 rest

/-- The signed 16-bit integer a register word stands for, read off its sign bit: the
two's-complement reinterpretation the conversion is specified by. -/
def twosComplement16 (w : Nat) : Int := if w < 32768 then (w : Int) else (w : Int) - 65536

/-- A rational number that a binary64 `double` holds exactly. -/
def IsBinary64 (q : ℚ) : Prop :=
  ∃ m e : Int, |m| < 2 ^ 53 ∧ -1074 ≤ e ∧ e ≤ 971 ∧ q = (m : ℚ) * (2 : ℚ) ^ e

/-! ## `CSVWriter::addDataBlock` (`ProWaveDAQ/include/CSVWriter.cpp`) -/

/-- Conversion of an integer value to `size_t` (64 bits). -/
def sizeT (x : Int) : Nat := (x % 18446744073709551616).toNat

/-- The inner loop `for (int j = 0; j < numChannels; ++j)` of `addDataBlock` over the
values `j` it takes, appending to the text `file`; `fmt` is the text `file << value`
produces.  `none` when `dataBlock[i + j]` is outside the vector. -/
def writeRow {α : Type} (fmt : α → String) (numChannels : Int) (dataBlock : List α)
    (i : Nat) : List Nat → String → Option String
  | [], file => some file
  | j :: js, file =>
    match dataBlock[sizeT ((i : Int) + (j : Int))]? with
    | none => none
    | some value =>
      writeRow fmt numChannels dataBlock i js
        (if (j : Int) < numChannels - 1 then file ++ fmt value ++ "," else file ++ fmt value)

/-- The outer loop `for (size_t i = 0; i < dataBlock.size(); i += numChannels)`. -/
def addDataBlockLoop {α : Type} (fmt : α → String) (numChannels : Int)
    (dataBlock : List α) : Nat → Nat → String → Option String
  | 0, i, file => if i < dataBlock.length then none else some file
  | fuel + 1, i, file =>
    if i < dataBlock.length then
      match writeRow fmt numChannels dataBlock i (List.range numChannels.toNat) file with
      | none => none
      | some file1 =>
        addDataBlockLoop fmt numChannels dataBlock fuel (sizeT ((i : Int) + numChannels))
          (file1 ++ "\n")
    else some file

/-- The method `CSVWriter::addDataBlock`: the text of the current file (opened in append
mode) after the call. -/
def addDataBlock {α : Type} (fmt : α → String) (numChannels : Int) (fuel : Nat)
    (file : String) (dataBlock : List α) : Option String :=
  addDataBlockLoop fmt numChannels dataBlock fuel 0 file

/-- Texts joined by single commas, none after the last. -/
def commaJoin : List String → String
  | [] => ""
  | [a] => a
  | a :: b :: rest => a ++ "," ++ commaJoin (b :: rest)

/-- Row `r` of a block as the row format describes it: the values
`block[r*C], ..., block[r*C + C - 1]` in that order, comma-separated, then a newline. -/
def csvLine {α : Type} (fmt : α → String) (C : Nat) (dataBlock : List α) (r : Nat) :
    String :=
  commaJoin (((dataBlock.drop (r * C)).take C).map fmt) ++ "\n"

/-- Lines one after the other. -/
def concatLines : List String → String
  | [] => ""
  | line :: rest => line ++ concatLines rest

/-! ## The `CSVWriter` object and its files (`ProWaveDAQ/include/CSVWriter.cpp`) -/

/-- The fields of a `CSVWriter` together with the files on disk: `files` lists, in the
order of their creation, the name and the text of every file. -/
structure CSVWriter where
  numChannels : Int
  outputDir : String
  label : String
  currentFilename : String
  files : List (String × String)
  deriving DecidableEq, Repr

/-- The method `CSVWriter::generateFilename`; `stamp` is the local time of the call printed
with `%Y%m%d%H%M%S`, so two calls within the same second get the same name. -/
def CSVWriter.generateFilename (w : CSVWriter) (stamp : String) : String :=
  w.outputDir ++ "/" ++ stamp ++ "_" ++ w.label ++ ".csv"

/-- The method `CSVWriter::updateFilename`. -/
def CSVWriter.updateFilename (w : CSVWriter) (stamp : String) : CSVWriter :=
  { w with currentFilename := w.generateFilename stamp }

/-- The constructor `CSVWriter(numChannels, outputDir, label)`, called at time `stamp`,
with no file written yet. -/
def CSVWriter.create (numChannels : Int) (outputDir label stamp : String) : CSVWriter :=
  { numChannels := numChannels, outputDir := outputDir, label := label,
    currentFilename := outputDir ++ "/" ++ stamp ++ "_" ++ label ++ ".csv", files := [] }

/-- The text of the file `name`; a file that does not exist has no text. -/
def fileText : List (String × String) → String → String
  | [], _ => ""
  | (n, t) :: rest, name => if n = name then t else fileText rest name

/-- The files after `name` has been given the text `text`. -/
def storeFile : List (String × String) → String → String → List (String × String)
  | [], name, text => [(name, text)]
  | (n, t) :: rest, name, text =>
    if n = name then (n, text) :: rest else (n, t) :: storeFile rest name text

/-- The method `CSVWriter::addDataBlock` on the object: the file `currentFilename` is
opened in append mode and receives what `addDataBlock` writes. -/
def CSVWriter.addDataBlock {α : Type} (fmt : α → String) (fuel : Nat) (w : CSVWriter)
    (dataBlock : List α) : Option CSVWriter :=
  match ProWaveDAQ.addDataBlock fmt w.numChannels fuel (fileText w.files w.currentFilename)
      dataBlock with
  | none => none
  | some text => some { w with files := storeFile w.files w.currentFilename text }

/-- The writer calls of the batcher carried out on the `CSVWriter`; `stamps` holds the time
stamps of the successive `updateFilename` calls. -/
def CSVWriter.applyCalls {α : Type} (fmt : α → String) (fuel : Nat) :
    CSVWriter → List String → List (WriterCall α) → Option CSVWriter
  | w, _, [] => some w
  | w, stamps, WriterCall.addDataBlock dataBlock :: rest =>
    match w.addDataBlock fmt fuel dataBlock with
    | none => none
    | some w1 => CSVWriter.applyCalls fmt fuel w1 stamps rest
  | _, [], WriterCall.updateFilename :: _ => none
  | w, stamp :: stamps, WriterCall.updateFilename :: rest =>
    CSVWriter.applyCalls fmt fuel (w.updateFilename stamp) stamps rest

/-! ## Lemmas on the batcher -/

theorem wrapInt32_eq (x : Int) (h0 : 0 ≤ x) (h1 : x < 2147483648) : wrapInt32 x = x := by
  unfold wrapInt32
  omega

theorem rotations_append {α : Type} (xs ys : List (WriterCall α)) :
    rotations (xs ++ ys) = rotations xs + rotations ys := by
  induction xs with
  | nil => simp [rotations]
  | cons c cs ih =>
    cases c with
    | addDataBlock b => simpa [rotations] using ih
    | updateFilename => simp [rotations, ih]; omega

theorem written_append {α : Type} (xs ys : List (WriterCall α)) :
    written (xs ++ ys) = written xs ++ written ys := by
  induction xs with
  | nil => simp [written]
  | cons c cs ih =>
    cases c with
    | addDataBlock b => simp [written, ih]
    | updateFilename => simpa [written] using ih

theorem rotations_loopCalls {α : Type} (batch : List α) (k : Nat) :
    rotations (loopCalls batch k) = k := by
  induction k with
  | zero => rfl
  | succ k ih => simp [loopCalls, rotations, ih]

/-- With a positive target, a valid first slice and fuel for `k` iterations, the splitting
loop started at `k * targetSize + r` (`0 ≤ r < targetSize`) runs exactly `k` iterations and
stops at `r`. -/
theorem splitLoop_run {α : Type} (targetSize emptySpace : Int) (data batch : List α)
    (hs : slice data 0 emptySpace = some batch) (r : Int) (hr0 : 0 ≤ r)
    (hr : r < targetSize) :
    ∀ (k fuel : Nat) (calls : List (WriterCall α)), k ≤ fuel →
      splitLoop targetSize emptySpace data fuel ((k : Int) * targetSize + r) calls
        = some (r, calls ++ loopCalls batch k) := by
  intro k
  induction k with
  | zero =>
    intro fuel calls _
    have hlt : ¬ ((0 : Nat) : Int) * targetSize + r ≥ targetSize := by
      simp only [Nat.cast_zero, zero_mul, zero_add]; omega
    cases fuel with
    | zero => simp [splitLoop, loopCalls]; omega
    | succ fuel => simp [splitLoop, loopCalls]; omega
  | succ k ih =>
    intro fuel calls hk
    cases fuel with
    | zero => omega
    | succ fuel =>
      have hk2 : k ≤ fuel := by omega
      have hge : ((k + 1 : Nat) : Int) * targetSize + r ≥ targetSize := by
        have : (0 : Int) ≤ (k : Int) * targetSize :=
          mul_nonneg (Int.ofNat_nonneg k) (by omega)
        push_cast
        linarith
      have hsub : ((k + 1 : Nat) : Int) * targetSize + r - targetSize
          = (k : Int) * targetSize + r := by
        push_cast
        ring
      rw [splitLoop, if_pos hge, hs]
      simp only
      rw [hsub, ih fuel _ hk2]
      simp [loopCalls]

theorem slice_front {α : Type} (data : List α) (e : Int) (h0 : 0 ≤ e)
    (h1 : e ≤ (data.length : Int)) : slice data 0 e = some (data.take e.toNat) := by
  simp [slice, h0, h1]

theorem slice_back {α : Type} (data : List α) (e : Int) (h0 : 0 ≤ e)
    (h1 : e ≤ (data.length : Int)) :
    slice data e (data.length : Int) = some (data.drop e.toNat) := by
  have hlen : ((data.length : Int) - e).toNat = data.length - e.toNat := by omega
  simp [slice, h0, h1, hlen]

/-- What one batcher call does in the crossing branch, for a positive target, a fill below
the target and a sum that fits an `int`: the loop runs `(f + n) / T` times, each time
writing the same first slice `data[0 .. T - f)` and rotating; then the rest
`data[T - f ..]` is written when it is not empty, and `dataSize` is left at `f + n - T`. -/
theorem batcher_crossing {α : Type} (fuel : Nat) (T f : Int) (data : List α)
    (hT : 0 < T) (hf0 : 0 ≤ f) (hfT : f < T) (hcross : T ≤ f + (data.length : Int))
    (hfit : f + (data.length : Int) < 2147483648)
    (hfuel : ((f + (data.length : Int)) / T).toNat ≤ fuel) :
    batcher fuel T f data
      = some (f + (data.length : Int) - T,
          loopCalls (data.take (T - f).toNat) ((f + (data.length : Int)) / T).toNat
            ++ (if (data.length : Int) - (T - f) ≠ 0
                then [WriterCall.addDataBlock (data.drop (T - f).toNat)] else [])) := by
  have hn0 : (0 : Int) ≤ (data.length : Int) := Int.ofNat_nonneg _
  have hw1 : wrapInt32 (f + (data.length : Int)) = f + (data.length : Int) :=
    wrapInt32_eq _ (by omega) hfit
  have hw2 : wrapInt32 (data.length : Int) = (data.length : Int) :=
    wrapInt32_eq _ hn0 (by omega)
  have he : T - (f + (data.length : Int) - (data.length : Int)) = T - f := by ring
  have hq0 : 0 ≤ (f + (data.length : Int)) / T := Int.ediv_nonneg (by omega) (by omega)
  have hdecomp : f + (data.length : Int)
      = (((f + (data.length : Int)) / T).toNat : Int) * T + (f + (data.length : Int)) % T := by
    rw [Int.toNat_of_nonneg hq0]
    have := Int.ediv_add_emod (f + (data.length : Int)) T
    linarith [mul_comm T ((f + (data.length : Int)) / T)]
  have hrun := splitLoop_run T (T - f) data (data.take (T - f).toNat)
    (slice_front data (T - f) (by omega) (by omega)) ((f + (data.length : Int)) % T)
    (Int.emod_nonneg _ (by omega)) (Int.emod_lt_of_pos _ hT)
    ((f + (data.length : Int)) / T).toNat fuel [] hfuel
  rw [← hdecomp] at hrun
  unfold batcher
  simp only [hw1, hw2, he]
  rw [if_neg (by omega), hrun]
  simp only [List.nil_append]
  by_cases hp : (data.length : Int) - (T - f) ≠ 0
  · rw [if_pos hp, if_pos hp, slice_back data (T - f) (by omega) (by omega)]
    simp only [Option.some.injEq, Prod.mk.injEq, and_true]
    ring
  · rw [if_neg hp, if_neg hp]
    simp only [List.append_nil, Option.some.injEq, Prod.mk.injEq, and_true]
    omega

/-! ### The batcher does not look at the samples -/

theorem slice_map {α β : Type} (g : α → β) (data : List α) (a b : Int) :
    slice (data.map g) a b = (slice data a b).map (List.map g) := by
  unfold slice
  by_cases h : 0 ≤ a ∧ a ≤ b ∧ b ≤ (data.length : Int)
  · simp [h, List.map_take, List.map_drop]
  · simp [h]

theorem splitLoop_map {α β : Type} (g : α → β) (T e : Int) (data : List α) :
    ∀ (fuel : Nat) (d : Int) (calls : List (WriterCall α)),
      splitLoop T e (data.map g) fuel d (calls.map (WriterCall.map g))
        = (splitLoop T e data fuel d calls).map (mapResult g) := by
  intro fuel
  induction fuel with
  | zero =>
    intro d calls
    by_cases h : d ≥ T <;> simp [splitLoop, h, mapResult]
  | succ fuel ih =>
    intro d calls
    by_cases h : d ≥ T
    · rw [splitLoop, splitLoop, if_pos h, if_pos h, slice_map]
      cases hs : slice data 0 e with
      | none => simp
      | some batch =>
        have := ih (d - T) (calls ++ [WriterCall.addDataBlock batch, WriterCall.updateFilename])
        simpa [WriterCall.map] using this
    · simp [splitLoop, h, mapResult]

theorem batcher_map {α β : Type} (g : α → β) (fuel : Nat) (T f : Int) (data : List α) :
    batcher fuel T f (data.map g) = (batcher fuel T f data).map (mapResult g) := by
  have hl := splitLoop_map g T
    (T - (wrapInt32 (f + (data.length : Int)) - wrapInt32 (data.length : Int))) data fuel
    (wrapInt32 (f + (data.length : Int))) []
  simp only [List.map_nil] at hl
  unfold batcher
  simp only [List.length_map]
  by_cases h : wrapInt32 (f + (data.length : Int)) < T
  · simp [h, mapResult, WriterCall.map]
  · rw [if_neg h, if_neg h, hl]
    cases hsl : splitLoop T
        (T - (wrapInt32 (f + (data.length : Int)) - wrapInt32 (data.length : Int))) data fuel
        (wrapInt32 (f + (data.length : Int))) [] with
    | none => simp
    | some r =>
      obtain ⟨d, calls⟩ := r
      simp only [Option.map_some', mapResult]
      by_cases hp : wrapInt32 (data.length : Int)
          - (T - (wrapInt32 (f + (data.length : Int)) - wrapInt32 (data.length : Int))) ≠ 0
      · rw [if_pos hp, if_pos hp, slice_map]
        cases slice data
            (T - (wrapInt32 (f + (data.length : Int)) - wrapInt32 (data.length : Int)))
            (data.length : Int) with
        | none => simp
        | some rem => simp [WriterCall.map, mapResult]
      · rw [if_neg hp, if_neg hp]
        simp [mapResult]

theorem runBatches_map {α β : Type} (g : α → β) (fuel : Nat) (T : Int) :
    ∀ (batches : List (List α)) (f : Int),
      runBatches fuel T f (batches.map (List.map g))
        = (runBatches fuel T f batches).map (mapResult g) := by
  intro batches
  induction batches with
  | nil => intro f; simp [runBatches, mapResult]
  | cons data rest ih =>
    intro f
    rw [List.map_cons, runBatches, runBatches, batcher_map]
    cases batcher fuel T f data with
    | none => simp
    | some r =>
      obtain ⟨d, calls⟩ := r
      simp only [Option.map_some', mapResult]
      rw [ih d]
      cases runBatches fuel T d rest with
      | none => simp
      | some r2 =>
        obtain ⟨d2, calls2⟩ := r2
        simp [mapResult]

theorem rotations_map {α β : Type} (g : α → β) (calls : List (WriterCall α)) :
    rotations (calls.map (WriterCall.map g)) = rotations calls := by
  induction calls with
  | nil => rfl
  | cons c cs ih => cases c <;> simp [rotations, WriterCall.map, ih]

theorem runsOf_map {α β : Type} (g : α → β) (calls : List (WriterCall α)) :
    runsOf (calls.map (WriterCall.map g)) = (runsOf calls).map (List.map g) := by
  induction calls with
  | nil => rfl
  | cons c cs ih =>
    cases c with
    | addDataBlock b =>
      simp only [List.map_cons, WriterCall.map, runsOf, ih]
      cases runsOf cs <;> simp
    | updateFilename => simp [runsOf, WriterCall.map, ih]

/-! ## Lemmas on `addDataBlock` -/

theorem sizeT_eq (n : Nat) (h : n < 18446744073709551616) : sizeT (n : Int) = n := by
  unfold sizeT
  omega

theorem commaJoin_cons (a : String) (l : List String) (h : l ≠ []) :
    commaJoin (a :: l) = a ++ "," ++ commaJoin l := by
  cases l with
  | nil => exact absurd rfl h
  | cons b rest => rfl

/-- The inner loop over the channels `j, ..., j + k - 1`, the last of which is channel
`C - 1`: it appends the `k` values from index `i + j` on, comma-separated. -/
theorem writeRow_run {α : Type} (fmt : α → String) (C : Nat) (dataBlock : List α) (i : Nat)
    (hsize : dataBlock.length < 18446744073709551616) :
    ∀ (k j : Nat) (file : String), j + k = C → i + j + k ≤ dataBlock.length →
      writeRow fmt (C : Int) dataBlock i (List.range' j k) file
        = some (file ++ commaJoin (((dataBlock.drop (i + j)).take k).map fmt)) := by
  intro k
  induction k with
  | zero =>
    intro j file _ _
    simp [writeRow, commaJoin]
  | succ k ih =>
    intro j file hjk hlen
    have hidx : sizeT ((i : Int) + (j : Int)) = i + j := by
      have := sizeT_eq (i + j) (by omega)
      simpa using this
    have hlt : i + j < dataBlock.length := by omega
    have hdrop : dataBlock.drop (i + j) = dataBlock[i + j] :: dataBlock.drop (i + j + 1) :=
      List.drop_eq_getElem_cons hlt
    rw [List.range'_succ, writeRow, hidx, List.getElem?_eq_getElem hlt]
    simp only
    rw [hdrop, List.take_succ_cons, List.map_cons]
    by_cases hk : k = 0
    · subst hk
      have hlast : ¬ ((j : Int) < (C : Int) - 1) := by omega
      rw [if_neg hlast]
      simp [writeRow, commaJoin]
    · have hnotlast : (j : Int) < (C : Int) - 1 := by omega
      rw [if_pos hnotlast, ih (j + 1) _ (by omega) (by omega)]
      have hne : ((dataBlock.drop (i + j + 1)).take k).map fmt ≠ [] := by
        intro hnil
        have hl := congrArg List.length hnil
        simp at hl
        omega
      rw [commaJoin_cons _ _ hne]
      have hij : i + (j + 1) = i + j + 1 := by omega
      simp only [hij, String.append_assoc]

/-- The outer loop started at row `r` with `m` rows left and fuel for them: it appends
the lines of rows `r, ..., r + m - 1`. -/
theorem addDataBlockLoop_run {α : Type} (fmt : α → String) (C : Nat) (dataBlock : List α)
    (hC : 1 ≤ C) (hsize : dataBlock.length < 18446744073709551616) :
    ∀ (m r fuel : Nat) (file : String), (r + m) * C = dataBlock.length → m ≤ fuel →
      addDataBlockLoop fmt (C : Int) dataBlock fuel (r * C) file
        = some (file ++ concatLines ((List.range' r m).map (csvLine fmt C dataBlock))) := by
  intro m
  induction m with
  | zero =>
    intro r fuel file hlen _
    have hnot : ¬ r * C < dataBlock.length := by
      simp only [Nat.add_zero] at hlen
      omega
    cases fuel <;> simp [addDataBlockLoop, hnot, concatLines]
  | succ m ih =>
    intro r fuel file hlen hfuel
    cases fuel with
    | zero => omega
    | succ fuel =>
      have hexp : (r + (m + 1)) * C = r * C + C + m * C := by ring
      have hlt : r * C < dataBlock.length := by
        rw [← hlen, hexp]
        omega
      have hrow := writeRow_run fmt C dataBlock (r * C) hsize C 0 file (by omega)
        (by rw [← hlen, hexp]; omega)
      have hnext : sizeT (((r * C : Nat) : Int) + (C : Int)) = (r + 1) * C := by
        have h1 : (r + 1) * C = r * C + C := by ring
        have := sizeT_eq (r * C + C) (by rw [← hlen, hexp] at hsize; omega)
        rw [h1]
        simpa using this
      rw [addDataBlockLoop, if_pos hlt, Int.toNat_ofNat, List.range_eq_range', hrow]
      simp only
      rw [hnext, ih (r + 1) fuel _ (by rw [← hlen]; ring) (by omega)]
      simp [List.range'_succ, concatLines, csvLine, String.append_assoc]

/-! ## Lemmas on the acquisition loop and on frame alignment -/

/-- The conversion loop leaves the array as soon as it has more iterations to run than
there are entries from `i` on. -/
theorem convertLoop_overrun (vib_data : List Nat) :
    ∀ (remaining i : Nat) (latestData : List ℚ), vib_data.length < i + remaining →
      0 < remaining → convertLoop vib_data remaining i latestData = none := by
  intro remaining
  induction remaining with
  | zero => intro i latestData _ h; omega
  | succ remaining ih =>
    intro i latestData hlen _
    by_cases hi : i < vib_data.length
    · rw [convertLoop, List.getElem?_eq_getElem hi]
      exact ih (i + 1) _ (by omega) (by omega)
    · have hnone : vib_data[i]? = none := List.getElem?_eq_none (by omega)
      rw [convertLoop, hnone]

/-- In the non-crossing branch the batch is written whole and added to the fill. -/
theorem batcher_noncrossing {α : Type} (fuel : Nat) (T f : Int) (data : List α)
    (hf0 : 0 ≤ f) (hlt : f + (data.length : Int) < T)
    (hfit : f + (data.length : Int) < 2147483648) :
    batcher fuel T f data
      = some (f + (data.length : Int), [WriterCall.addDataBlock data]) := by
  have hw1 : wrapInt32 (f + (data.length : Int)) = f + (data.length : Int) :=
    wrapInt32_eq _ (by omega) hfit
  unfold batcher
  simp only [hw1]
  rw [if_pos hlt]

theorem mem_loopCalls {α : Type} (batch block : List α) :
    ∀ k : Nat, WriterCall.addDataBlock block ∈ loopCalls batch k → block = batch := by
  intro k
  induction k with
  | zero => intro h; simp [loopCalls] at h
  | succ k ih =>
    intro h
    simp only [loopCalls, List.mem_cons] at h
    rcases h with h | h | h
    · injection h
    · cases h
    · exact ih h

/-- A block of whole rows is written as whole rows: for `C ≥ 1` and a length that is a
multiple of `C` and fits a `size_t`, `addDataBlock` with fuel for the rows stays inside the
block and appends its `length / C` lines. -/
theorem addDataBlock_whole_rows {α : Type} (fmt : α → String) (C fuel : Nat) (file : String)
    (block : List α) (hC : 1 ≤ C) (hdvd : C ∣ block.length)
    (hsize : block.length < 18446744073709551616) (hfuel : block.length / C ≤ fuel) :
    addDataBlock fmt (C : Int) fuel file block
      = some (file ++ concatLines
          ((List.range (block.length / C)).map (csvLine fmt C block))) := by
  have hlen : (0 + block.length / C) * C = block.length := by
    rw [Nat.zero_add]
    exact Nat.div_mul_cancel hdvd
  have h := addDataBlockLoop_run fmt C block hC hsize (block.length / C) 0 fuel file hlen hfuel
  rw [Nat.zero_mul] at h
  rw [addDataBlock, h, List.range_eq_range']

/-- The slices of a batcher call under frame alignment are whole frames. -/
theorem batcher_slices_aligned {α : Type} (C fuel : Nat) (T f : Int) (data : List α)
    (hT : 0 < T) (hCT : (C : Int) ∣ T) (hf0 : 0 ≤ f) (hfT : f < T) (hCf : (C : Int) ∣ f)
    (hCn : C ∣ data.length) (hfit : f + (data.length : Int) < 2147483648)
    (hfuel : ((f + (data.length : Int)) / T).toNat ≤ fuel) :
    ∃ dataSize calls, batcher fuel T f data = some (dataSize, calls)
      ∧ (C : Int) ∣ dataSize
      ∧ ∀ block, WriterCall.addDataBlock block ∈ calls →
          C ∣ block.length ∧ block.length ≤ data.length := by
  have hCnZ : (C : Int) ∣ (data.length : Int) := Int.natCast_dvd_natCast.mpr hCn
  by_cases hlt : f + (data.length : Int) < T
  · refine ⟨_, _, batcher_noncrossing fuel T f data hf0 hlt hfit, dvd_add hCf hCnZ, ?_⟩
    intro block hmem
    simp only [List.mem_singleton, WriterCall.addDataBlock.injEq] at hmem
    subst hmem
    exact ⟨hCn, le_refl _⟩
  · have hcross : T ≤ f + (data.length : Int) := by omega
    refine ⟨_, _, batcher_crossing fuel T f data hT hf0 hfT hcross hfit hfuel,
      dvd_sub (dvd_add hCf hCnZ) hCT, ?_⟩
    have hroom : (C : Int) ∣ (((T - f).toNat : Nat) : Int) := by
      rw [Int.toNat_of_nonneg (by omega)]
      exact dvd_sub hCT hCf
    have hroomN : C ∣ (T - f).toNat := Int.natCast_dvd_natCast.mp hroom
    have hle : (T - f).toNat ≤ data.length := by omega
    intro block hmem
    rcases List.mem_append.mp hmem with h | h
    · have hb := mem_loopCalls _ _ _ h
      subst hb
      rw [List.length_take, Nat.min_eq_left hle]
      exact ⟨hroomN, hle⟩
    · split at h
      · simp only [List.mem_singleton, WriterCall.addDataBlock.injEq] at h
        subst h
        rw [List.length_drop]
        exact ⟨Nat.dvd_sub' hCn hroomN, Nat.sub_le _ _⟩
      · simp at h

/-! ## Properties of the save-unit batcher -/

/-- C1, evaluated on the code: with `targetSize = 30`, `dataSize = 0` and a batch of 75
samples `0 .. 74` (so that `f + n ≥ 2T`), the slices the batcher call passes to
`addDataBlock` are `data[0 .. 30)`, `data[0 .. 30)` once more and `data[30 .. 75)`: 105
samples, the first 30 written twice, and not the batch. -/
theorem batcher_repeats_first_slice :
    (batcher 2 30 0 (List.range 75)).map (fun r => written r.2)
        = some (List.range 30 ++ List.range 30 ++ List.range' 30 45)
      ∧ (List.range 30 ++ List.range 30 ++ List.range' 30 45).length = 105
      ∧ List.range 30 ++ List.range 30 ++ List.range' 30 45 ≠ List.range 75 := by
  decide

/-- C2, evaluated on the code: with `targetSize = 30`, `dataSize = 0` and a batch of 75
samples the batcher call leaves `dataSize = 45`, whereas `(0 + 75) mod 30 = 15`. -/
theorem batcher_fill_not_reduced :
    (batcher 2 30 0 (List.range 75)).map Prod.fst = some 45
      ∧ ((0 : Int) + 75) % 30 = 15 := by
  decide

/-- C3 as stated fails when `f + n` does not fit the `int` `dataSize`: with
`T = 2147483646`, `f = 2147483640` and a batch of 9 samples (`0 < T`, `0 ≤ f < T`,
`f + n ≥ T`), `dataSize += data.size()` wraps to `-2147483647`, the call takes the
non-crossing branch and makes no rotation, whereas `floor((f + n) / T) = 1`. -/
theorem batcher_rotations_wrapped :
    (0 : Int) < 2147483646 ∧ (0 : Int) ≤ 2147483640 ∧ (2147483640 : Int) < 2147483646
      ∧ (2147483646 : Int) ≤ 2147483640 + ((List.range 9).length : Int)
      ∧ batcher 1 2147483646 2147483640 (List.range 9)
          = some (-2147483647, [WriterCall.addDataBlock (List.range 9)])
      ∧ rotations [WriterCall.addDataBlock (List.range 9)] = 0
      ∧ ((2147483640 : Int) + ((List.range 9).length : Int)) / 2147483646 = 1
      ∧ ¬ ∃ dataSize calls,
          batcher 1 2147483646 2147483640 (List.range 9) = some (dataSize, calls)
            ∧ (rotations calls : Int)
              = ((2147483640 : Int) + ((List.range 9).length : Int)) / 2147483646 := by
  have hrun : batcher 1 2147483646 2147483640 (List.range 9)
      = some (-2147483647, [WriterCall.addDataBlock (List.range 9)]) := by decide
  refine ⟨by decide, by decide, by decide, by decide, hrun, by decide, by decide, ?_⟩
  rintro ⟨dataSize, calls, h, hrot⟩
  rw [hrun] at h
  simp only [Option.some.injEq, Prod.mk.injEq] at h
  obtain ⟨_, hcalls⟩ := h
  rw [← hcalls] at hrot
  revert hrot
  decide

/-- C3, amended: for a positive target `T`, a fill `0 ≤ f < T` and a batch with
`f + n ≥ T`, where `f + n` fits the `int` `dataSize` (`f + n < 2^31`), the batcher call
returns as soon as the splitting loop is given fuel for `(f + n) / T` iterations, and it
calls `updateFilename` exactly `floor((f + n) / T)` times. -/
theorem batcher_rotations {α : Type} (fuel : Nat) (T f : Int) (data : List α)
    (hT : 0 < T) (hf0 : 0 ≤ f) (hfT : f < T) (hcross : T ≤ f + (data.length : Int))
    (hfit : f + (data.length : Int) < 2147483648)
    (hfuel : ((f + (data.length : Int)) / T).toNat ≤ fuel) :
    ∃ dataSize calls, batcher fuel T f data = some (dataSize, calls)
      ∧ (rotations calls : Int) = (f + (data.length : Int)) / T := by
  refine ⟨_, _, batcher_crossing fuel T f data hT hf0 hfT hcross hfit hfuel, ?_⟩
  have hq0 : 0 ≤ (f + (data.length : Int)) / T := Int.ediv_nonneg (by omega) (by omega)
  rw [rotations_append, rotations_loopCalls]
  split
  · simp [rotations, Int.toNat_of_nonneg hq0]
  · simp [rotations, Int.toNat_of_nonneg hq0]

/-- Witness of C3 at `T = 30`, `f = 10` and a batch of 75 samples (two rotations). -/
theorem batcher_rotations_witness :
    ∃ dataSize calls, batcher 2 30 10 (List.range 75) = some (dataSize, calls)
      ∧ (rotations calls : Int) = (10 + ((List.range 75).length : Int)) / 30 :=
  batcher_rotations 2 30 10 (List.range 75) (by decide) (by decide) (by decide)
    (by decide) (by decide) (by decide)

/-- C4, evaluated on the code: with `targetSize = 30`, starting from `dataSize = 0`, one
batch of 75 samples leaves `dataSize = 45`, which is not below the target; the next call
then builds its first slice from the negative length `30 - 45` and has no defined
result. -/
theorem runningFill_exceeds_target :
    (runBatches 2 30 0 [List.range 75]).map Prod.fst = some 45
      ∧ ¬ ((45 : Int) < 30)
      ∧ runBatches 2 30 0 [List.range 75, List.range 9] = none := by
  decide

/-- C5 as stated fails on the writer: with `T = 10` and the program's three channels the
scenario's call trace starts `addDataBlock [0 .. 8]`, `addDataBlock [9]`; the first call
writes three rows to the first file, but the row of the one-sample slice reads
`dataBlock[1]`, outside the slice, and the scenario carried out on the `CSVWriter` has no
defined result: the first file does not receive the 10 samples. -/
theorem scenario_writer_leaves_slice :
    ((runBatches 1 10 0 ((List.range 9).map (fun k => List.range' (9 * k) 9))).map
        (fun r => r.2.take 2))
        = some [WriterCall.addDataBlock (List.range' 0 9), WriterCall.addDataBlock [9]]
      ∧ CSVWriter.applyCalls (fun n : Nat => toString n) 10
            (CSVWriter.create 3 "out" "run" "20250101000000")
            ["20250101000001"] [WriterCall.addDataBlock (List.range' 0 9)]
          = some { numChannels := 3, outputDir := "out", label := "run",
                   currentFilename := "out/20250101000000_run.csv",
                   files := [("out/20250101000000_run.csv", "0,1,2\n3,4,5\n6,7,8\n")] }
      ∧ ([9] : List Nat)[1]? = none
      ∧ writeRow (fun n : Nat => toString n) 3 [9] 0 (List.range 3)
          "0,1,2\n3,4,5\n6,7,8\n" = none
      ∧ (runBatches 1 10 0 ((List.range 9).map (fun k => List.range' (9 * k) 9))).bind
          (fun r => CSVWriter.applyCalls (fun n : Nat => toString n) 10
            (CSVWriter.create 3 "out" "run" "20250101000000")
            ["20250101000001", "20250101000002", "20250101000003", "20250101000004",
             "20250101000005", "20250101000006", "20250101000007", "20250101000008"] r.2)
          = none := by
  refine ⟨by decide, by decide, by decide, by decide, by decide⟩

/-- C5, amended to the batcher's calls: with `T = 10`, from `dataSize = 0`, nine batches
of 9 samples each (`x i` being the `i`-th of the 81 samples): `dataSize` ends at 1, there
are exactly 8 `updateFilename` calls, hence 9 runs of slices; the slices handed to
`addDataBlock` before the first rotation are samples `0 .. 9` (the 9 of the first batch and
the first of the second), every run but the last holds 10 samples and the last holds the
one remaining sample. -/
theorem scenario_nine_batches_of_nine {α : Type} (x : Nat → α) :
    (runBatches 1 10 0 ((List.range 9).map (fun k => (List.range' (9 * k) 9).map x))).map
        (fun r => (r.1, rotations r.2, runsOf r.2))
      = some (1, 8,
          [(List.range' 0 10).map x, (List.range' 10 10).map x, (List.range' 20 10).map x,
           (List.range' 30 10).map x, (List.range' 40 10).map x, (List.range' 50 10).map x,
           (List.range' 60 10).map x, (List.range' 70 10).map x, (List.range' 80 1).map x]) := by
  have hb : (List.range 9).map (fun k => (List.range' (9 * k) 9).map x)
      = ((List.range 9).map (fun k => List.range' (9 * k) 9)).map (List.map x) := by
    rw [List.map_map]; rfl
  have hc : (runBatches 1 10 0 ((List.range 9).map (fun k => List.range' (9 * k) 9))).map
        (fun r => (r.1, rotations r.2, runsOf r.2))
      = some (1, 8,
          [List.range' 0 10, List.range' 10 10, List.range' 20 10, List.range' 30 10,
           List.range' 40 10, List.range' 50 10, List.range' 60 10, List.range' 70 10,
           List.range' 80 1]) := by
    decide
  rw [hb, runBatches_map]
  cases hr : runBatches 1 10 0 ((List.range 9).map (fun k => List.range' (9 * k) 9)) with
  | none => rw [hr] at hc; simp at hc
  | some r =>
    rw [hr] at hc
    simp only [Option.map_some', Option.some.injEq, Prod.mk.injEq] at hc
    obtain ⟨h1, h2, h3⟩ := hc
    simp only [Option.map_some', mapResult, rotations_map, runsOf_map, h1, h2, h3]
    rfl

/-! ## Properties of the consumer loop and of the acquisition loop -/

/-- C6, evaluated on the code: the acquisition thread completes two cycles (publishing
`[1, 2, 3]`, then `[4, 5, 6]`) before the consumer polls; the consumer then runs two
iterations with no further publication in between, and both of them hand the batch
`[4, 5, 6]` to the batcher, because `prevCounter` advances by one only. -/
theorem consumer_hands_batch_twice :
    run (initialPipeline Nat)
        [Step.publish [1, 2, 3], Step.publish [4, 5, 6],
         Step.getCounter, Step.process, Step.getCounter, Step.process]
      = some { counter := 2, latestData := [4, 5, 6], prevCounter := 2,
               currentCounter := none, handed := [[4, 5, 6], [4, 5, 6]] } := by
  decide

/-- C7, evaluated on the code: the count read before the loop is 3, the debounce re-poll
of the first cycle returns 9, and the second cycle therefore reads `9 + 1 = 10` registers
(header 12 and nine data words).  The batch it publishes holds the conversions of
registers 1 to 3 only: its length is the stale `saveLen = 3`, not the 9 that determined
the read. -/
theorem published_batch_after_debounce :
    ((readLoopStart (List.replicate 124 0) [] 0 [3]).bind
        (fun s => readLoopCycles s [[9], [12, 8192, 0, 57344, 1, 2, 3, 4, 5, 6]])).map
        (fun s => (s.latestData, s.counter, s.saveLen))
      = some ([convertRegister 8192, convertRegister 0, convertRegister 57344], 1, 12)
    ∧ ((readLoopStart (List.replicate 124 0) [] 0 [3]).bind
        (fun s => readLoopCycles s [[9]])).map
        (fun s => (s.vib_data[0]?, s.saveLen, s.latestData, s.counter))
      = some (some 9, 3, [], 0)
    ∧ readLength 9 = 10 := by
  refine ⟨rfl, rfl, rfl⟩

/-- C8: in every state of the acquisition loop whose header `vib_data[0]` is at most 6,
the cycle returns, asks for one register only, changes nothing but `vib_data[0]`
(registers 1 and up keep their values) and leaves `latestData`, `counter` and `saveLen`
as they were, whatever the device replies. -/
theorem debounce_cycle (s : ReadLoopState) (reply : List Nat) (header : Nat)
    (h0 : s.vib_data[0]? = some header) (h6 : header ≤ 6) :
    ∃ s1, readLoopCycle s reply = some s1
      ∧ s1.latestData = s.latestData ∧ s1.counter = s.counter ∧ s1.saveLen = s.saveLen
      ∧ s1.vib_data = readRegisters 1 reply s.vib_data
      ∧ s1.vib_data.drop 1 = s.vib_data.drop 1
      ∧ readLength header = 1 := by
  have hmax : ¬ header ≥ maxSize := by
    unfold maxSize
    omega
  refine ⟨{ s with vib_data := readRegisters 1 reply s.vib_data }, ?_, rfl, rfl, rfl, rfl,
    ?_, ?_⟩
  · simp [readLoopCycle, h0, hmax, h6]
  · cases reply with
    | nil => simp [readRegisters]
    | cons r rest => simp [readRegisters]
  · simp [readLength, hmax, h6]

/-- Witness of C8: header 3, a published batch and a counter of 7, re-poll answer 50. -/
theorem debounce_cycle_witness :
    ∃ s1, readLoopCycle
        { vib_data := 3 :: List.replicate 123 0, saveLen := 3, latestData := [1, 0],
          counter := 7 } [50] = some s1
      ∧ s1.latestData = [1, 0] ∧ s1.counter = 7 ∧ s1.saveLen = 3
      ∧ s1.vib_data = readRegisters 1 [50] (3 :: List.replicate 123 0)
      ∧ s1.vib_data.drop 1 = (3 :: List.replicate 123 0).drop 1
      ∧ readLength 3 = 1 :=
  debounce_cycle
    { vib_data := 3 :: List.replicate 123 0, saveLen := 3, latestData := [1, 0],
      counter := 7 } [50] 3 rfl (by decide)

/-- C9: for every 16-bit register word `w` the converted sample is `v / 8192`, `v` being
`w` read as a two's-complement signed 16-bit integer, and this quotient is a binary64
value (so the floating-point division is exact); `v = 8192` gives `1`, the word `0xE000`
(`v = -8192`) gives `-1` and `v = 0` gives `0`. -/
theorem convertRegister_exact :
    (∀ w : Nat, w < 65536 →
        convertRegister w = (twosComplement16 w : ℚ) / 8192
          ∧ IsBinary64 (convertRegister w))
      ∧ twosComplement16 8192 = 8192 ∧ convertRegister 8192 = 1
      ∧ twosComplement16 57344 = -8192 ∧ convertRegister 57344 = -1
      ∧ twosComplement16 0 = 0 ∧ convertRegister 0 = 0 := by
  refine ⟨?_, by decide, ?_, by decide, ?_, by decide, ?_⟩
  · intro w hw
    have hcast : castInt16 w = twosComplement16 w := by
      unfold castInt16 twosComplement16
      split <;> omega
    refine ⟨by rw [convertRegister, hcast], castInt16 w, -13, ?_, by norm_num, by norm_num, ?_⟩
    · have h1 : -32768 ≤ castInt16 w := by unfold castInt16; omega
      have h2 : castInt16 w < 32768 := by unfold castInt16; omega
      rw [abs_lt]
      constructor <;> norm_num <;> omega
    · rw [convertRegister, div_eq_mul_inv]
      norm_num [zpow_neg]
  · norm_num [convertRegister, castInt16]
  · norm_num [convertRegister, castInt16]
  · norm_num [convertRegister, castInt16]

/-- Witness of C9 at the word `0xE000`. -/
theorem convertRegister_exact_witness :
    convertRegister 57344 = (twosComplement16 57344 : ℚ) / 8192
      ∧ IsBinary64 (convertRegister 57344) :=
  convertRegister_exact.1 57344 (by decide)


/-! ## Properties of `CSVWriter::addDataBlock` -/

/-- C10: for a channel count `C ≥ 1` and a block whose length is a multiple of `C` (and
fits a `size_t`), `addDataBlock` returns as soon as it has fuel for `length / C` rows, no
index it reads is outside the block, and it appends to the text of the file exactly the
`length / C` lines `csvLine 0, csvLine 1, ...`: line `r` holds the values
`block[r*C], ..., block[r*C + C - 1]` in that order, separated by single commas, with no
trailing comma, and ends with a newline; nothing else (no header) is written. -/
theorem addDataBlock_rows {α : Type} (fmt : α → String) (C fuel : Nat) (file : String)
    (dataBlock : List α) (hC : 1 ≤ C) (hdvd : C ∣ dataBlock.length)
    (hsize : dataBlock.length < 18446744073709551616)
    (hfuel : dataBlock.length / C ≤ fuel) :
    addDataBlock fmt (C : Int) fuel file dataBlock
        = some (file ++ concatLines
            ((List.range (dataBlock.length / C)).map (csvLine fmt C dataBlock)))
      ∧ ((List.range (dataBlock.length / C)).map (csvLine fmt C dataBlock)).length
        = dataBlock.length / C
      ∧ ∀ r, r < dataBlock.length / C →
          ((dataBlock.drop (r * C)).take C).length = C
          ∧ csvLine fmt C dataBlock r
            = commaJoin (((dataBlock.drop (r * C)).take C).map fmt) ++ "\n" := by
  have hlen : (0 + dataBlock.length / C) * C = dataBlock.length := by
    rw [Nat.zero_add]
    exact Nat.div_mul_cancel hdvd
  refine ⟨?_, by simp, ?_⟩
  · have h := addDataBlockLoop_run fmt C dataBlock hC hsize (dataBlock.length / C) 0 fuel file
      hlen hfuel
    rw [Nat.zero_mul] at h
    rw [addDataBlock, h, List.range_eq_range']
  · intro r hr
    refine ⟨?_, rfl⟩
    have h1 : (r + 1) * C ≤ dataBlock.length / C * C := Nat.mul_le_mul_right C hr
    rw [Nat.zero_add] at hlen
    rw [List.length_take, List.length_drop]
    have h2 : (r + 1) * C = r * C + C := by ring
    omega

/-- Witness of C10: three channels, two rows, appended to a file that holds one line. -/
theorem addDataBlock_rows_witness :
    addDataBlock (fun n : Nat => if n = 1 then "a" else "b") ((3 : Nat) : Int) 2 "x\n"
          [1, 2, 3, 4, 5, 6]
        = some ("x\n" ++ concatLines
            ((List.range (([1, 2, 3, 4, 5, 6] : List Nat).length / 3)).map
              (csvLine (fun n : Nat => if n = 1 then "a" else "b") 3 [1, 2, 3, 4, 5, 6])))
      ∧ ((List.range (([1, 2, 3, 4, 5, 6] : List Nat).length / 3)).map
          (csvLine (fun n : Nat => if n = 1 then "a" else "b") 3 [1, 2, 3, 4, 5, 6])).length
        = ([1, 2, 3, 4, 5, 6] : List Nat).length / 3
      ∧ ∀ r, r < ([1, 2, 3, 4, 5, 6] : List Nat).length / 3 →
          ((([1, 2, 3, 4, 5, 6] : List Nat).drop (r * 3)).take 3).length = 3
          ∧ csvLine (fun n : Nat => if n = 1 then "a" else "b") 3 [1, 2, 3, 4, 5, 6] r
            = commaJoin (((([1, 2, 3, 4, 5, 6] : List Nat).drop (r * 3)).take 3).map
                (fun n : Nat => if n = 1 then "a" else "b")) ++ "\n" :=
  addDataBlock_rows (fun n : Nat => if n = 1 then "a" else "b") 3 2 "x\n" [1, 2, 3, 4, 5, 6]
    (by decide) (by decide) (by decide) (by decide)

/-! ## Buffer bound and frame alignment -/

/-- C11, evaluated on the code: the count read before the loop is 200, so `saveLen = 200`;
the first cycle clamps its read to `maxSize + 1 = 124` registers, but the conversion loop
runs to `saveLen`: indices 1 to 123 are inside `vib_data`, index 124 is not, and the cycle
has no defined result.  The same happens when a header of 200 arrives in the reply of an
ordinary cycle (here after a first cycle that publishes 50 samples). -/
theorem conversion_reads_past_buffer :
    (readLoopStart (List.replicate 124 0) [] 0 [200]).map
        (fun s => (s.vib_data.length, s.vib_data[0]?, s.saveLen)) = some (124, some 200, 200)
      ∧ readLength 200 = 124
      ∧ (readLoopStart (List.replicate 124 0) [] 0 [200]).bind
          (fun s => readLoopCycle s (130 :: List.replicate 123 8192)) = none
      ∧ (readRegisters 124 (130 :: List.replicate 123 8192)
          (200 :: List.replicate 123 0)).length = 124
      ∧ (convertLoop (readRegisters 124 (130 :: List.replicate 123 8192)
          (200 :: List.replicate 123 0)) 123 1 []).isSome = true
      ∧ convertLoop (readRegisters 124 (130 :: List.replicate 123 8192)
          (200 :: List.replicate 123 0)) 124 1 [] = none
      ∧ ((readLoopStart (List.replicate 124 0) [] 0 [50]).bind
          (fun s => readLoopCycles s [200 :: List.replicate 50 0])).map
          (fun s => (s.latestData.length, s.counter, s.saveLen)) = some (50, 1, 200)
      ∧ (readLoopStart (List.replicate 124 0) [] 0 [50]).bind
          (fun s => readLoopCycles s
            [200 :: List.replicate 50 0, 130 :: List.replicate 123 8192]) = none := by
  refine ⟨by decide, by decide, by decide, by decide, by decide, by decide, by decide,
    by decide⟩


/-- C12 as stated fails when `f + n` does not fit the `int` `dataSize`: with `C = 3`,
`T = 2147483646`, `f = 2147483640` and a batch of 9 samples (all multiples of 3,
`0 ≤ f < T`), `dataSize += data.size()` wraps and the call leaves
`dataSize = -2147483647`, which is not a multiple of 3. -/
theorem batcher_alignment_wrapped :
    (0 : Int) < 2147483646 ∧ ((3 : Nat) : Int) ∣ 2147483646
      ∧ (0 : Int) ≤ 2147483640 ∧ (2147483640 : Int) < 2147483646
      ∧ ((3 : Nat) : Int) ∣ 2147483640 ∧ 3 ∣ (List.range 9).length
      ∧ (batcher 1 2147483646 2147483640 (List.range 9)).map Prod.fst
          = some (-2147483647)
      ∧ ¬ (((3 : Nat) : Int) ∣ -2147483647) := by
  decide

/-- C12, amended: if `T > 0` is a multiple of the channel count `C`, the fill `f` is a
multiple of `C` with `0 ≤ f < T`, the batch length `n` is a multiple of `C` and `f + n`
fits the `int` `dataSize` (`f + n < 2^31`), then the batcher call returns, the fill it
leaves is again a multiple of `C`, and every slice it passes to `addDataBlock` has a
length that is a multiple of `C`; hence `addDataBlock`, called on such a slice, reads no
index outside the slice and writes it as `length / C` whole rows, so no row straddles a
file boundary. -/
theorem batcher_frame_aligned {α : Type} (fmt : α → String) (C fuel : Nat) (T f : Int)
    (data : List α) (hT : 0 < T) (hCT : (C : Int) ∣ T) (hf0 : 0 ≤ f) (hfT : f < T)
    (hCf : (C : Int) ∣ f) (hCn : C ∣ data.length)
    (hfit : f + (data.length : Int) < 2147483648)
    (hfuel : ((f + (data.length : Int)) / T).toNat ≤ fuel) :
    ∃ dataSize calls, batcher fuel T f data = some (dataSize, calls)
      ∧ (C : Int) ∣ dataSize
      ∧ ∀ block, WriterCall.addDataBlock block ∈ calls →
          C ∣ block.length
          ∧ ∀ (file : String) (fuel2 : Nat), block.length / C ≤ fuel2 →
              addDataBlock fmt (C : Int) fuel2 file block
                = some (file ++ concatLines
                    ((List.range (block.length / C)).map (csvLine fmt C block))) := by
  have hC1 : 1 ≤ C := by
    rcases Nat.eq_zero_or_pos C with h0 | hpos
    · subst h0
      have : T = 0 := by simpa using hCT
      omega
    · exact hpos
  obtain ⟨dataSize, calls, hrun, hdvd, hslices⟩ :=
    batcher_slices_aligned C fuel T f data hT hCT hf0 hfT hCf hCn hfit hfuel
  refine ⟨dataSize, calls, hrun, hdvd, ?_⟩
  intro block hmem
  obtain ⟨hb, hle⟩ := hslices block hmem
  refine ⟨hb, ?_⟩
  intro file fuel2 hfuel2
  exact addDataBlock_whole_rows fmt C fuel2 file block hC1 hb (by omega) hfuel2

/-- Witness of C12: three channels, `T = 30`, `f = 9` and a batch of 75 samples. -/
theorem batcher_frame_aligned_witness :
    ∃ dataSize calls, batcher 2 30 9 (List.range 75) = some (dataSize, calls)
      ∧ ((3 : Nat) : Int) ∣ dataSize
      ∧ ∀ block, WriterCall.addDataBlock block ∈ calls →
          3 ∣ block.length
          ∧ ∀ (file : String) (fuel2 : Nat), block.length / 3 ≤ fuel2 →
              addDataBlock (fun n : Nat => if n = 1 then "a" else "b") ((3 : Nat) : Int)
                  fuel2 file block
                = some (file ++ concatLines
                    ((List.range (block.length / 3)).map
                      (csvLine (fun n : Nat => if n = 1 then "a" else "b") 3 block))) :=
  batcher_frame_aligned (fun n : Nat => if n = 1 then "a" else "b") 3 2 30 9 (List.range 75)
    (by decide) (by decide) (by decide) (by decide) (by decide) (by decide) (by decide)
    (by decide)

end ProWaveDAQ
